import Mathlib

/-!
Shallow embedding of the scroll-reaction library (src/src/scroll-reaction.js,
module version, together with src/src/default-config.js and the defer helper).
Pixel coordinates are modelled as integers; the status percentage, which JS
computes with IEEE double division, is modelled over the rationals extended
with NaN and the two infinities (the only special values reachable here).
-/

/-- JavaScript number results relevant to the status computation:
either an ordinary (rational) value, NaN, or an infinity. -/
inductive JSNum where
  | nan : JSNum
  | inf : JSNum
  | ninf : JSNum
  | real (q : ℚ) : JSNum
deriving DecidableEq

/-- JS division `a / b` for finite operands: the only special results are
`0/0 = NaN` and `±x/0 = ±Infinity`. -/
def jsDiv (a b : ℚ) : JSNum :=
  if b = 0 then
    if a = 0 then JSNum.nan else if 0 < a then JSNum.inf else JSNum.ninf
  else JSNum.real (a / b)

/-- Multiplication by the literal 100, as in `(position / wbp) * 100`. -/
def jsMul100 : JSNum → JSNum
  | JSNum.nan => JSNum.nan
  | JSNum.inf => JSNum.inf
  | JSNum.ninf => JSNum.ninf
  | JSNum.real q => JSNum.real (q * 100)

/-- `Math.min(x, 100)`: NaN propagates, `Infinity` caps at 100. -/
def jsMin100 : JSNum → JSNum
  | JSNum.nan => JSNum.nan
  | JSNum.inf => JSNum.real 100
  | JSNum.ninf => JSNum.ninf
  | JSNum.real q => JSNum.real (min q 100)

/-- `this.status = Math.min((this.position / windowBottomPosition) * 100, 100)`
(scroll-reaction.js line 188). -/
def jsStatus (position windowBottomPosition : Int) : JSNum :=
  jsMin100 (jsMul100 (jsDiv (position : ℚ) (windowBottomPosition : ℚ)))

/-- Merged configuration record (default-config.js). The source field
`attribute` is a Lean keyword and is called `attributeName` here.
`attributeCurrent` is
`none` when the user set it to `false`; `some ""` models the empty string.
Options that only drive DOM event wiring (`smoothScroll`, the deprecated
`offset`/`offsetFrom`) are resolved before the modelled functions run:
`offsetTop`/`offsetBottom` hold the already-evaluated numeric offsets. -/
structure Config where
  attributeName : String
  attributeCurrent : Option String
  multiple : Bool
  offsetTop : Int
  offsetBottom : Int
  rewind : Bool
  throttleDelay : Int
  windowBottomOffset : Int
deriving DecidableEq

/-- The defaults of default-config.js. -/
def defaultConfig : Config where
  attributeName := "data-scroll-reaction"
  attributeCurrent := some "data-scroll-active"
  multiple := false
  offsetTop := 5
  offsetBottom := 5
  rewind := true
  throttleDelay := 100
  windowBottomOffset := 20

/-- JS truthiness of the `attributeCurrent` option (line 195:
`if (!config.attributeCurrent) return;`). -/
def attrTruthy : Option String → Bool
  | none => false
  | some s => !(s == "")

/-- One emitter entry as seen by a single `update()` pass:
`rectTop`/`rectBottom` are the values of `getBoundingClientRect()` read at
this pass (viewport-relative), `active` is the stored flag. -/
structure Emitter where
  rectTop : Int
  rectBottom : Int
  active : Bool
deriving DecidableEq

/-- `margin.top` (line 209): `multiple ? window.innerHeight - offsetBottom :
offsetTop`. -/
def marginTop (cfg : Config) (innerHeight : Int) : Int :=
  if cfg.multiple then innerHeight - cfg.offsetBottom else cfg.offsetTop

/-- `margin.bottom` (line 210): always `offsetTop`. -/
def marginBottom (cfg : Config) : Int :=
  cfg.offsetTop

/-- `emitterPosition.top` (line 218):
`Math.max(rect.top + position - margin.top, 0)`. -/
def trigTop (mt pos : Int) (em : Emitter) : Int :=
  max (em.rectTop + pos - mt) 0

/-- `emitterPosition.bottom` (line 219):
`Math.max(rect.bottom + position - margin.bottom, 0)`. -/
def trigBottom (mb pos : Int) (em : Emitter) : Int :=
  max (em.rectBottom + pos - mb) 0

/-- `hasReachedEmitter` (line 224):
`this.position >= emitterPosition.top || this.position >= bottomPosition`. -/
def hasReached (mt pos bottomPos : Int) (em : Emitter) : Bool :=
  decide (trigTop mt pos em ≤ pos) || decide (bottomPos ≤ pos)

/-- `hasSurpassedEmitter` (line 225): `this.position > emitterPosition.bottom`. -/
def hasSurpassed (mb pos : Int) (em : Emitter) : Bool :=
  decide (trigBottom mb pos em < pos)

/-- The per-emitter active update (lines 229-236): set the flag when reached,
not surpassed and `multiple` is on; otherwise clear it only when `rewind`. -/
def stepActive (cfg : Config) (mt mb pos bottomPos : Int) (em : Emitter) : Emitter :=
  if hasReached mt pos bottomPos em && !hasSurpassed mb pos em && cfg.multiple then
    { em with active := true }
  else if cfg.rewind then
    { em with active := false }
  else em

/-- `lastEmitter.position`, with the initial `-1` for a missing id (line 181). -/
def accPos : Option (String × Int) → Int
  | none => -1
  | some p => p.2

/-- The `lastEmitter` accumulation (lines 238-242): remember the reached
emitter with the strictly greatest clamped trigger top, first one winning ties. -/
def findLastAux (mt pos bottomPos : Int) :
    Option (String × Int) → List (String × Emitter) → Option (String × Int)
  | acc, [] => acc
  | acc, p :: rest =>
    let t := trigTop mt pos p.2
    let acc' :=
      if hasReached mt pos bottomPos p.2 && decide (accPos acc < t) then some (p.1, t)
      else acc
    findLastAux mt pos bottomPos acc' rest

/-- The `lastEmitter` found by the whole emitter loop. -/
def findLastReached (mt pos bottomPos : Int) (ems : List (String × Emitter)) :
    Option (String × Int) :=
  findLastAux mt pos bottomPos none ems

/-- `emitters[lastEmitter.id].active = true` (line 247) on the id-keyed
collection. -/
def setActiveById (id : String) (ems : List (String × Emitter)) :
    List (String × Emitter) :=
  ems.map fun p => if p.1 = id then (p.1, { p.2 with active := true }) else p

/-- The emitter loop's per-element flag updates (lines 214-243), which do not
depend on one another: the `lastEmitter` bookkeeping reads only the geometry. -/
def stepAll (cfg : Config) (innerHeight pos bottomPos : Int)
    (ems : List (String × Emitter)) : List (String × Emitter) :=
  ems.map fun p =>
    (p.1, stepActive cfg (marginTop cfg innerHeight) (marginBottom cfg) pos bottomPos p.2)

/-- The classification part of `update()` (lines 213-248): run the per-emitter
flag update, then force the lowest reached emitter active.  The final guard
`if (lastEmitter.id)` is JS truthiness, so an empty id would be skipped. -/
def classifyEmitters (cfg : Config) (innerHeight pos bottomPos : Int)
    (ems : List (String × Emitter)) : List (String × Emitter) :=
  match findLastReached (marginTop cfg innerHeight) pos bottomPos ems with
  | some pr =>
    if pr.1 = "" then stepAll cfg innerHeight pos bottomPos ems
    else setActiveById pr.1 (stepAll cfg innerHeight pos bottomPos ems)
  | none => stepAll cfg innerHeight pos bottomPos ems

/-- Number of emitters currently flagged active. -/
def countActive (ems : List (String × Emitter)) : Nat :=
  (ems.filter fun p => p.2.active).length

/-- DOM geometry shift between two passes: replace the stored bounding-rect
readings (the rects move as the user scrolls), keeping the active flags. -/
def setRects (rs : List (String × Int × Int)) (ems : List (String × Emitter)) :
    List (String × Emitter) :=
  ems.map fun p =>
    match rs.lookup p.1 with
    | some r => (p.1, { p.2 with rectTop := r.1, rectBottom := r.2 })
    | none => p

/-- A DOM element found by `querySelectorAll('[' + config.attribute + ']')`
(line 110): its `href` attribute (absent or a string) and the value of the
configured listener attribute (present by selector, possibly empty). -/
structure FoundListener where
  href : Option String
  attrValue : String
deriving DecidableEq

/-- A stored listener entry (lines 155-158). The DOM element reference is
modelled by the found element's data. -/
structure RegListener where
  element : FoundListener
  emitterId : String
deriving DecidableEq

/-- The registry collections: `listeners` array and the id-keyed `emitters`
object (the Bool is the `active` flag initialised to `false`). -/
structure Registry where
  listeners : List RegListener
  emitters : List (String × Bool)
deriving DecidableEq

/-- `listenerHref` (line 122): the page-anchor fragment of the `href`
attribute, or the empty string. JS: `href && href.indexOf('#') == 0 ?
href.replace('#', '') : ''`; when the href starts with `#`, replacing the
first `#` is dropping the first character. -/
def listenerHrefOf (fl : FoundListener) : String :=
  match fl.href with
  | some h => if h.startsWith "#" then h.drop 1 else ""
  | none => ""

/-- `emitterId` (line 127) combined with its truthiness test on line 128:
prefer the anchor fragment, fall back to the attribute value; `none` when the
chosen string is empty (JS falsy), in which case no id lookup happens. -/
def emitterIdOf (fl : FoundListener) : Option String :=
  let lh := listenerHrefOf fl
  let id := if lh = "" then fl.attrValue else lh
  if id = "" then none else some id

/-- Does the listener element's emitter id resolve to a document element
(`document.getElementById`, line 128)? `docIds` is the set of element ids
present in the document. -/
def resolves (docIds : List String) (fl : FoundListener) : Bool :=
  match emitterIdOf fl with
  | some id => docIds.contains id
  | none => false

/-- `emitters[emitterId] = { element: emitter, active: false }` (line 148) on
the insertion-ordered key collection: overwrite in place or append. -/
def insertEmitter (ems : List (String × Bool)) (id : String) : List (String × Bool) :=
  if ems.any fun p => p.1 = id then
    ems.map fun p => if p.1 = id then (id, false) else p
  else ems ++ [(id, false)]

/-- One iteration of the refresh scan (lines 119-160) for a single found
element: register emitter and listener only when the id resolves. The
smooth-scroll click wiring (lines 132-140) has no effect on the collections. -/
def scanStep (docIds : List String) (acc : Registry) (fl : FoundListener) : Registry :=
  match emitterIdOf fl with
  | some id =>
    if docIds.contains id then
      { listeners := acc.listeners ++ [{ element := fl, emitterId := id }],
        emitters := insertEmitter acc.emitters id }
    else acc
  | none => acc

/-- The registry part of `refresh()` (lines 108-161): when at least one
listener element is found, rebuild both collections from scratch, looping
over the found elements in reverse document order; when none is found the
stored collections are left untouched. The trailing `this.update()` call
(line 165) is the classification pass modelled by `update` below and does not
add or remove entries. -/
def refreshRegistry (reg : Registry) (found : List FoundListener)
    (docIds : List String) : Registry :=
  if found.isEmpty then reg
  else found.reverse.foldl (scanStep docIds) { listeners := [], emitters := [] }

/-- A listener element's state relevant to `update()`: the linked emitter id
and whether the `attributeCurrent` marker attribute is currently present. -/
structure DomListener where
  emitterId : String
  hasMarker : Bool
deriving DecidableEq

/-- `emitters[listeners[l].emitterId]` (line 252). -/
def lookupEmitter (ems : List (String × Emitter)) (id : String) : Option Emitter :=
  (ems.find? fun p => p.1 = id).map Prod.snd

/-- The listener loop of `update()` (lines 251-263): set or remove the marker
attribute according to the linked emitter's flag. A dangling emitter id makes
the JS code throw a TypeError, modelled as `none`. -/
def reconcile (ems : List (String × Emitter)) (ls : List DomListener) :
    Option (List DomListener) :=
  ls.mapM fun l => (lookupEmitter ems l.emitterId).map fun em =>
    { l with hasMarker := em.active }

/-- Everything `update()` (lines 171-264) leaves behind: the two public
properties, the fact that the `update` event fired, and the new emitter and
listener states. -/
structure UpdateResult where
  position : Int
  status : JSNum
  firedUpdate : Bool
  emitters : List (String × Emitter)
  listeners : List DomListener
deriving DecidableEq

/-- `update()` (lines 171-264): recompute `position` and `status`, emit the
`update` event, and — only when `attributeCurrent` is truthy — classify the
emitters and reconcile the listener attributes. -/
def update (cfg : Config) (clientHeight innerHeight scrollY : Int)
    (ems : List (String × Emitter)) (ls : List DomListener) : Option UpdateResult :=
  let windowBottomPosition := clientHeight - innerHeight
  let bottomPosition := windowBottomPosition - cfg.windowBottomOffset
  let status := jsStatus scrollY windowBottomPosition
  if attrTruthy cfg.attributeCurrent = false then
    some { position := scrollY, status := status, firedUpdate := true,
           emitters := ems, listeners := ls }
  else
    let ems' := classifyEmitters cfg innerHeight scrollY bottomPosition ems
    match reconcile ems' ls with
    | some ls' => some { position := scrollY, status := status, firedUpdate := true,
                         emitters := ems', listeners := ls' }
    | none => none

/-- The browser state read by `scrollTo` (lines 271-318): the viewport-relative
top of each document element by id, the stored `this.position`, the resolved
`offsetTop`, the current URL split as fragment-free part and fragment, and
history API support. -/
structure ScrollToEnv where
  elemTopOf : String → Option Int
  position : Int
  offsetTop : Int
  urlBase : String
  historySupported : Bool

/-- The single history effect `scrollTo` can produce: one
`history.replaceState` call (line 304) — never a push, so no new entry. -/
inductive HistoryEffect where
  | noneEff : HistoryEffect
  | replaced (url : String) : HistoryEffect
deriving DecidableEq

/-- What a `scrollTo` call computes. -/
structure ScrollToResult where
  endPosition : Int
  history : HistoryEffect
deriving DecidableEq

/-- `scrollTo(id)` (lines 271-318): resolve the element only for a truthy id;
`endPosition` defaults to 0 and becomes `rect.top + this.position - offsetTop
+ 1` (line 286) when the element exists; `replaceState` receives `'#' + id`
for a truthy id and the fragment-stripped current URL otherwise. -/
def scrollTo (env : ScrollToEnv) (id : Option String) : ScrollToResult :=
  let idT : Option String :=
    match id with
    | some s => if s = "" then none else some s
    | none => none
  let element : Option Int :=
    match idT with
    | some s => env.elemTopOf s
    | none => none
  let endPosition : Int :=
    match element with
    | some top => top + env.position - env.offsetTop + 1
    | none => 0
  let history : HistoryEffect :=
    if env.historySupported then
      HistoryEffect.replaced
        (match idT with
         | some s => "#" ++ s
         | none => env.urlBase)
    else HistoryEffect.noneEff
  { endPosition := endPosition, history := history }

/-- The closure state of `defer` (defer.js): `lastTime` (undefined before the
first run) and the pending timeout as (absolute firing time, the `now` the
callback captured). -/
structure DeferState where
  lastTime : Option Int
  timer : Option (Int × Int)
deriving DecidableEq

/-- JS truthiness of `lastTime` in `lastTime && now < lastTime + interval`:
undefined and 0 are falsy. -/
def truthyTime : Option Int → Bool
  | none => false
  | some t => !(t == 0)

/-- One invocation of the wrapped function (defer.js lines 701-722) at clock
time `now`, after first running a pending timeout whose firing time has
arrived. Returns the new state and the executions (time, wasDeferred) it
caused. In throttle mode the immediate branch saves `lastTime = now` and does
not clear a pending timer; the defer branch replaces the pending timer with
one firing `interval` ms after this call. -/
def deferCall (interval : Int) (debounce : Bool) (s : DeferState) (now : Int) :
    DeferState × List (Int × Bool) :=
  let fired : DeferState × List (Int × Bool) :=
    match s.timer with
    | some p =>
      if p.1 ≤ now then ({ lastTime := some p.2, timer := none }, [(p.1, true)])
      else (s, [])
    | none => (s, [])
  let s1 := fired.1
  if debounce || (truthyTime s1.lastTime && decide (now < s1.lastTime.getD 0 + interval)) then
    ({ s1 with timer := some (now + interval, now) }, fired.2)
  else
    ({ lastTime := some now, timer := s1.timer }, fired.2 ++ [(now, false)])

/-- Run a sequence of invocations at increasing clock times, then let any
still-pending timeout fire. Produces the chronological execution list. -/
def deferRun (interval : Int) (debounce : Bool) :
    DeferState → List Int → List (Int × Bool)
  | s, [] =>
    match s.timer with
    | some p => [(p.1, true)]
    | none => []
  | s, t :: rest =>
    let r := deferCall interval debounce s t
    r.2 ++ deferRun interval debounce r.1 rest

/-- The executions produced by calling the rate-limited wrapper at the given
clock times, starting from the fresh closure state. -/
def deferSim (interval : Int) (debounce : Bool) (calls : List Int) :
    List (Int × Bool) :=
  deferRun interval debounce { lastTime := none, timer := none } calls

/-! ## Supporting lemmas -/

theorem trigTop_nonneg (mt pos : Int) (em : Emitter) : 0 ≤ trigTop mt pos em :=
  le_max_right _ _

theorem stepActive_rectTop (cfg : Config) (mt mb pos bottomPos : Int) (em : Emitter) :
    (stepActive cfg mt mb pos bottomPos em).rectTop = em.rectTop := by
  unfold stepActive
  split
  · rfl
  · split
    · rfl
    · rfl

theorem trigTop_stepActive (cfg : Config) (mt mb pos bottomPos mt' pos' : Int)
    (em : Emitter) :
    trigTop mt' pos' (stepActive cfg mt mb pos bottomPos em) = trigTop mt' pos' em := by
  unfold trigTop
  rw [stepActive_rectTop]

theorem hasReached_stepActive (cfg : Config) (mt mb pos bottomPos mt' pos' bp' : Int)
    (em : Emitter) :
    hasReached mt' pos' bp' (stepActive cfg mt mb pos bottomPos em) =
      hasReached mt' pos' bp' em := by
  unfold hasReached
  rw [trigTop_stepActive]

theorem key_unique {α : Type} (l : List (String × α))
    (hnd : (l.map Prod.fst).Nodup) :
    ∀ p ∈ l, ∀ q ∈ l, p.1 = q.1 → p = q := by
  induction l with
  | nil =>
    intro p hp
    cases hp
  | cons a rest ih =>
    rw [List.map_cons, List.nodup_cons] at hnd
    intro p hp q hq hpq
    rcases List.mem_cons.mp hp with h1 | h1 <;> rcases List.mem_cons.mp hq with h2 | h2
    · rw [h1, h2]
    · exfalso
      apply hnd.1
      rw [h1] at hpq
      rw [hpq]
      exact List.mem_map_of_mem Prod.fst h2
    · exfalso
      apply hnd.1
      rw [h2] at hpq
      rw [← hpq]
      exact List.mem_map_of_mem Prod.fst h1
    · exact ih hnd.2 p h1 q h2 hpq

/-! ## C5 -/

/-- C5: at `position = 0` with `documentBottomPosition = 0` (page not taller
than the viewport) the unguarded division of line 188 evaluates to
`0/0 = NaN`, so the status property is NaN rather than a number in
`[0, 100]`: the guard the claim requires is missing from the code. -/
theorem status_nan_at_zero_docBottom : jsStatus 0 0 = JSNum.nan := by
  decide

/-! ## C10 -/

/-- C10: when the `attributeCurrent` option is disabled (`false` or the empty
string are both falsy), `update()` still recomputes `position` and `status`
and fires the `update` event, but returns before the emitter loop: the
emitter flags and the listener marker attributes are returned unchanged. -/
theorem update_skips_classification_when_marker_disabled
    (cfg : Config) (clientHeight innerHeight scrollY : Int)
    (ems : List (String × Emitter)) (ls : List DomListener)
    (h : attrTruthy cfg.attributeCurrent = false) :
    update cfg clientHeight innerHeight scrollY ems ls =
      some { position := scrollY,
             status := jsStatus scrollY (clientHeight - innerHeight),
             firedUpdate := true, emitters := ems, listeners := ls } := by
  unfold update
  rw [if_pos h]

/-- C10 witness: a concrete pass with `attributeCurrent = false` leaves one
active-flagged emitter and one marker-carrying listener untouched. -/
theorem update_skips_classification_when_marker_disabled_witness :
    update { defaultConfig with attributeCurrent := none } 1600 800 120
        [("s1", { rectTop := -20, rectBottom := 30, active := true })]
        [{ emitterId := "s1", hasMarker := true }] =
      some { position := 120, status := jsStatus 120 800, firedUpdate := true,
             emitters := [("s1", { rectTop := -20, rectBottom := 30, active := true })],
             listeners := [{ emitterId := "s1", hasMarker := true }] } :=
  update_skips_classification_when_marker_disabled
    { defaultConfig with attributeCurrent := none } 1600 800 120
    [("s1", { rectTop := -20, rectBottom := 30, active := true })]
    [{ emitterId := "s1", hasMarker := true }] (by decide)

/-! ## C9 -/

/-- C9: `scrollTo` computes `rect.top + this.position - offsetTop + 1` when
the id resolves; with no argument or an unresolved id the destination is 0;
with no argument the single `replaceState` call receives the fragment-free
URL, so the fragment is stripped without a new history entry. -/
theorem scrollTo_destination_and_history (env : ScrollToEnv)
    (hh : env.historySupported = true) :
    (∀ id top, id ≠ "" → env.elemTopOf id = some top →
      (scrollTo env (some id)).endPosition = top + env.position - env.offsetTop + 1) ∧
    (scrollTo env none).endPosition = 0 ∧
    (∀ id, id ≠ "" → env.elemTopOf id = none →
      (scrollTo env (some id)).endPosition = 0) ∧
    (scrollTo env none).history = HistoryEffect.replaced env.urlBase := by
  refine ⟨?_, ?_, ?_, ?_⟩
  · intro id top hid htop
    simp [scrollTo, hid, htop]
  · rfl
  · intro id hid htop
    simp [scrollTo, hid, htop]
  · simp [scrollTo, hh]

/-- C9 witness: a resolving id, the no-argument call and an unresolved id,
on a concrete document. -/
theorem scrollTo_destination_and_history_witness :
    (scrollTo { elemTopOf := fun s => if s = "sec" then some 400 else none,
                position := 50, offsetTop := 5, urlBase := "x", historySupported := true }
        (some "sec")).endPosition = 400 + 50 - 5 + 1 ∧
    (scrollTo { elemTopOf := fun s => if s = "sec" then some 400 else none,
                position := 50, offsetTop := 5, urlBase := "x", historySupported := true }
        none).endPosition = 0 ∧
    (scrollTo { elemTopOf := fun s => if s = "sec" then some 400 else none,
                position := 50, offsetTop := 5, urlBase := "x", historySupported := true }
        (some "nope")).endPosition = 0 ∧
    (scrollTo { elemTopOf := fun s => if s = "sec" then some 400 else none,
                position := 50, offsetTop := 5, urlBase := "x", historySupported := true }
        none).history = HistoryEffect.replaced "x" := by
  have h := scrollTo_destination_and_history
    { elemTopOf := fun s => if s = "sec" then some 400 else none,
      position := 50, offsetTop := 5, urlBase := "x", historySupported := true } (by rfl)
  exact ⟨h.1 "sec" 400 (by decide) (by simp), h.2.1,
    h.2.2.1 "nope" (by decide) (by simp), h.2.2.2⟩

/-! ## C2 -/

/-- Modelled from the spec's words in section 4.2, for comparison only: an
emitter is a candidate when `scrollPosition > triggerY` with
`triggerY = emitterTop + scrollPosition - offset` (strict comparison, no
clamping), or `scrollPosition >= bottomPosition`. -/
def candidateSpec (offset pos bottomPos : Int) (em : Emitter) : Bool :=
  decide (em.rectTop + pos - offset < pos) || decide (bottomPos ≤ pos)

/-- C2 counterexample: with the default single-mode offset 5, scroll position
100, a far-away page bottom and an emitter whose trigger is exactly 100, the
code's comparison (`>=`, line 224) marks the emitter reached while the
claim's strict `>` does not: the claimed equivalence fails. -/
theorem reached_comparison_not_strict :
    hasReached (marginTop defaultConfig 800) 100 100000
        { rectTop := 5, rectBottom := 55, active := false } = true ∧
    candidateSpec defaultConfig.offsetTop 100 100000
        { rectTop := 5, rectBottom := 55, active := false } = false := by
  decide

/-- C2 amended: in single-active mode, for any nonnegative scroll position an
emitter is treated as reached exactly when `scrollPosition >= triggerY`
(non-strict) or `scrollPosition >= bottomPosition`; the `Math.max(_, 0)`
clamp of line 218 is absorbed by `0 ≤ pos`. -/
theorem reached_iff_nonstrict_trigger (cfg : Config) (innerHeight pos bottomPos : Int)
    (em : Emitter) (hm : cfg.multiple = false) (hp : 0 ≤ pos) :
    hasReached (marginTop cfg innerHeight) pos bottomPos em =
      (decide (em.rectTop + pos - cfg.offsetTop ≤ pos) || decide (bottomPos ≤ pos)) := by
  have h1 : marginTop cfg innerHeight = cfg.offsetTop := by
    simp [marginTop, hm]
  rw [h1]
  unfold hasReached trigTop
  congr 1
  rw [decide_eq_decide]
  omega

/-- C2 witness: the amended equivalence evaluated at the counterexample's
inputs, where both sides are `true`. -/
theorem reached_iff_nonstrict_trigger_witness :
    hasReached (marginTop defaultConfig 800) 100 100000
        { rectTop := 5, rectBottom := 55, active := false } =
      (decide ((5 : Int) + 100 - defaultConfig.offsetTop ≤ 100) ||
        decide ((100000 : Int) ≤ 100)) :=
  reached_iff_nonstrict_trigger defaultConfig 800 100 100000
    { rectTop := 5, rectBottom := 55, active := false } (by decide) (by decide)

/-! ## C6 -/

/-- A registry holding one listener/emitter pair from an earlier scan. -/
def regPrev : Registry :=
  { listeners := [{ element := { href := some "#a", attrValue := "" }, emitterId := "a" }],
    emitters := [("a", false)] }

/-- C6 counterexample: when `refresh()` finds zero listener elements, the
emptying of the collections (lines 115-116) is skipped because it sits inside
`if (foundListeners.length > 0)`, so a previously filled registry survives:
the collections are not left empty. -/
theorem refresh_zero_found_keeps_old_registry :
    (refreshRegistry regPrev [] ["a"]).listeners =
        [{ element := { href := some "#a", attrValue := "" }, emitterId := "a" }] ∧
    (refreshRegistry regPrev [] ["a"]).emitters = [("a", false)] := by
  decide

/-- C6 amended: finding zero listener elements makes `refresh()` leave the
listener and emitter collections exactly as they were (a no-op, so an empty
registry stays empty), and whenever at least one listener element is found
the collections are rebuilt from the found elements alone — the result does
not depend on the previous registry contents. -/
theorem refresh_noop_on_zero_found (reg reg' : Registry)
    (found : List FoundListener) (docIds : List String) :
    refreshRegistry reg [] docIds = reg ∧
    (found ≠ [] → refreshRegistry reg found docIds = refreshRegistry reg' found docIds) := by
  constructor
  · rfl
  · intro h
    cases found with
    | nil => exact absurd rfl h
    | cons a l => rfl

/-- C6 witness: with one found element, rebuilding from scratch gives the same
result whether the previous registry was empty or the filled `regPrev`. -/
theorem refresh_noop_on_zero_found_witness :
    refreshRegistry { listeners := [], emitters := [] }
        [{ href := some "#sec", attrValue := "" }] ["sec"] =
      refreshRegistry regPrev [{ href := some "#sec", attrValue := "" }] ["sec"] :=
  (refresh_noop_on_zero_found { listeners := [], emitters := [] } regPrev
    [{ href := some "#sec", attrValue := "" }] ["sec"]).2 (by decide)

/-! ## C4 -/

/-- C4: with `rewind = false` no classification pass ever clears an active
flag — the per-emitter branch (lines 229-236) either sets the flag or, with
`rewind` off, leaves the emitter untouched, and the final `lastEmitter`
assignment only sets a flag: position by position, a true flag stays true. -/
theorem no_rewind_preserves_active_flags (cfg : Config)
    (innerHeight pos bottomPos : Int) (ems : List (String × Emitter))
    (hr : cfg.rewind = false) (i : Nat) (p : String × Emitter)
    (hp : ems[i]? = some p) (ha : p.2.active = true) :
    ∃ q, (classifyEmitters cfg innerHeight pos bottomPos ems)[i]? = some q ∧
      q.2.active = true := by
  have hstep : ∀ em : Emitter, em.active = true →
      (stepActive cfg (marginTop cfg innerHeight) (marginBottom cfg) pos bottomPos em).active = true := by
    intro em hem
    unfold stepActive
    split
    · rfl
    · rw [hr]
      simpa using hem
  have hstepped : (stepAll cfg innerHeight pos bottomPos ems)[i]? =
      some (p.1, stepActive cfg (marginTop cfg innerHeight) (marginBottom cfg) pos bottomPos p.2) := by
    unfold stepAll
    rw [List.getElem?_map, hp]
    rfl
  have hset : ∀ id : String, ∃ q,
      (setActiveById id (stepAll cfg innerHeight pos bottomPos ems))[i]? = some q ∧
      q.2.active = true := by
    intro id
    unfold setActiveById
    rw [List.getElem?_map, hstepped]
    by_cases hc : p.1 = id
    · exact ⟨_, rfl, by simp [hc]⟩
    · refine ⟨_, rfl, ?_⟩
      simp only [Option.map_some]
      rw [if_neg hc]
      exact hstep p.2 ha
  unfold classifyEmitters
  split
  · split
    · exact ⟨_, hstepped, hstep p.2 ha⟩
    · exact hset _
  · exact ⟨_, hstepped, hstep p.2 ha⟩

/-- C4 witness: a concrete emitter that is active before a `rewind = false`
pass (and not even reached at the pass's scroll position) keeps its flag. -/
theorem no_rewind_preserves_active_flags_witness :
    ∃ q, (classifyEmitters { defaultConfig with rewind := false } 800 0 1000
        [("a", { rectTop := 500, rectBottom := 550, active := true })])[0]? = some q ∧
      q.2.active = true :=
  no_rewind_preserves_active_flags { defaultConfig with rewind := false } 800 0 1000
    [("a", { rectTop := 500, rectBottom := 550, active := true })] (by decide) 0
    ("a", { rectTop := 500, rectBottom := 550, active := true }) (by decide) (by decide)

/-! ## Lemmas about the lastEmitter fold -/

theorem findLastAux_isSome (mt pos bottomPos : Int) (l : List (String × Emitter)) :
    ∀ acc : Option (String × Int), acc.isSome = true →
      (findLastAux mt pos bottomPos acc l).isSome = true := by
  induction l with
  | nil =>
    intro acc h
    exact h
  | cons p rest ih =>
    intro acc h
    simp only [findLastAux]
    apply ih
    split
    · rfl
    · exact h

theorem findLastAux_some_of_reached (mt pos bottomPos : Int)
    (l : List (String × Emitter)) :
    ∀ acc : Option (String × Int),
      (∃ p ∈ l, hasReached mt pos bottomPos p.2 = true) →
      (findLastAux mt pos bottomPos acc l).isSome = true := by
  induction l with
  | nil =>
    intro acc h
    rcases h with ⟨p, hp, _⟩
    cases hp
  | cons q rest ih =>
    intro acc h
    simp only [findLastAux]
    rcases h with ⟨p, hp, hre⟩
    rcases List.mem_cons.mp hp with heq | hmem
    · by_cases hc : (hasReached mt pos bottomPos q.2 &&
          decide (accPos acc < trigTop mt pos q.2)) = true
      · rw [if_pos hc]
        exact findLastAux_isSome mt pos bottomPos rest _ rfl
      · rw [if_neg hc]
        apply findLastAux_isSome mt pos bottomPos rest
        cases acc with
        | some _ => rfl
        | none =>
          exfalso
          apply hc
          rw [heq] at hre
          rw [hre]
          simp only [Bool.true_and, decide_eq_true_eq, accPos]
          have := trigTop_nonneg mt pos q.2
          omega
    · exact ih _ ⟨p, hmem, hre⟩

theorem findLastAux_mem (mt pos bottomPos : Int) (l : List (String × Emitter)) :
    ∀ (acc : Option (String × Int)) (id : String) (t : Int),
      findLastAux mt pos bottomPos acc l = some (id, t) →
      acc = some (id, t) ∨
        ∃ p ∈ l, p.1 = id ∧ trigTop mt pos p.2 = t ∧
          hasReached mt pos bottomPos p.2 = true := by
  induction l with
  | nil =>
    intro acc id t h
    exact Or.inl h
  | cons q rest ih =>
    intro acc id t h
    simp only [findLastAux] at h
    rcases ih _ _ _ h with hacc | hmem
    · by_cases hc : (hasReached mt pos bottomPos q.2 &&
          decide (accPos acc < trigTop mt pos q.2)) = true
      · rw [if_pos hc] at hacc
        injection hacc with h2
        right
        rw [Bool.and_eq_true] at hc
        refine ⟨q, List.mem_cons_self _ _, ?_, ?_, hc.1⟩
        · exact congrArg Prod.fst h2
        · exact congrArg Prod.snd h2
      · rw [if_neg hc] at hacc
        exact Or.inl hacc
    · right
      rcases hmem with ⟨p, hp, h1, h2, h3⟩
      exact ⟨p, List.mem_cons_of_mem _ hp, h1, h2, h3⟩

theorem findLastAux_le (mt pos bottomPos : Int) (l : List (String × Emitter)) :
    ∀ acc : Option (String × Int),
      accPos acc ≤ accPos (findLastAux mt pos bottomPos acc l) := by
  induction l with
  | nil =>
    intro acc
    exact le_refl _
  | cons q rest ih =>
    intro acc
    simp only [findLastAux]
    refine le_trans ?_ (ih _)
    split
    · rename_i hc
      rw [Bool.and_eq_true] at hc
      have hlt := of_decide_eq_true hc.2
      exact le_of_lt hlt
    · exact le_refl _

theorem findLastAux_maximal (mt pos bottomPos : Int) (l : List (String × Emitter)) :
    ∀ acc : Option (String × Int), ∀ q ∈ l, hasReached mt pos bottomPos q.2 = true →
      trigTop mt pos q.2 ≤ accPos (findLastAux mt pos bottomPos acc l) := by
  induction l with
  | nil =>
    intro acc q hq
    cases hq
  | cons r rest ih =>
    intro acc q hq hre
    simp only [findLastAux]
    rcases List.mem_cons.mp hq with heq | hmem
    · refine le_trans ?_ (findLastAux_le mt pos bottomPos rest _)
      subst heq
      by_cases hc : (hasReached mt pos bottomPos q.2 &&
          decide (accPos acc < trigTop mt pos q.2)) = true
      · rw [if_pos hc]
        exact le_refl _
      · rw [if_neg hc]
        have : ¬ accPos acc < trigTop mt pos q.2 := by
          intro hlt
          apply hc
          rw [hre]
          simpa using hlt
        exact le_of_not_lt this
    · exact ih _ q hmem hre

theorem classifyEmitters_eq_some (cfg : Config) (innerHeight pos bottomPos : Int)
    (ems : List (String × Emitter)) (id : String) (t : Int)
    (h : findLastReached (marginTop cfg innerHeight) pos bottomPos ems = some (id, t))
    (hid : id ≠ "") :
    classifyEmitters cfg innerHeight pos bottomPos ems =
      setActiveById id (stepAll cfg innerHeight pos bottomPos ems) := by
  unfold classifyEmitters
  rw [h]
  dsimp only
  rw [if_neg hid]

theorem countActive_setActiveById (id : String) (l : List (String × Emitter))
    (hall : ∀ p ∈ l, p.2.active = false)
    (hnd : (l.map Prod.fst).Nodup) (hid : id ∈ l.map Prod.fst) :
    countActive (setActiveById id l) = 1 := by
  unfold countActive setActiveById
  rw [← List.countP_eq_length_filter, List.countP_map]
  have h1 : l.countP ((fun p : String × Emitter => p.2.active) ∘ fun p =>
      if p.1 = id then (p.1, { p.2 with active := true }) else p) =
      l.countP (fun p => decide (p.1 = id)) := by
    apply List.countP_congr
    intro p hp
    by_cases hc : p.1 = id
    · simp [hc]
    · simp [hc, hall p hp]
  rw [h1]
  have h2 : l.countP (fun p => decide (p.1 = id)) =
      (l.map Prod.fst).countP (fun s => decide (s = id)) := by
    rw [List.countP_map]
    rfl
  rw [h2]
  have h3 : (l.map Prod.fst).count id =
      (l.map Prod.fst).countP (fun s => decide (s = id)) := by
    unfold List.count
    apply List.countP_congr
    intro s _
    simp
  rw [← h3]
  exact List.count_eq_one_of_mem hnd hid

/-! ## C1 -/

/-- A single-mode configuration with `rewind` disabled, as a user may set it. -/
def configNoRewind : Config :=
  { defaultConfig with rewind := false }

/-- C1 counterexample: in single-active mode with `rewind = false`, two
classification passes (scrolling from 200 to 600, the rect readings shifting
accordingly) leave TWO emitters flagged active: the clearing branch (lines
232-236) is skipped when `rewind` is off, so the claim's "never more than
one" fails without a rewind assumption. -/
theorem single_mode_two_active_without_rewind :
    countActive (classifyEmitters configNoRewind 800 600 10000
      (setRects [("a", (-500, -450)), ("b", (-200, -150))]
        (classifyEmitters configNoRewind 800 200 10000
          [("a", { rectTop := -100, rectBottom := -50, active := false }),
           ("b", { rectTop := 200, rectBottom := 250, active := false })]))) = 2 := by
  decide

/-- C1 amended: in single-active mode *with `rewind = true` (the default)*,
after a classification pass at any scroll position, once at least one emitter
is reached exactly one emitter is flagged active, and every active emitter is
a reached one whose clamped trigger position is greatest among all reached
emitters (emitter ids are unique and non-empty, as `refresh()` builds them). -/
theorem single_mode_rewind_exactly_one_active
    (cfg : Config) (innerHeight pos bottomPos : Int) (ems : List (String × Emitter))
    (hm : cfg.multiple = false) (hrw : cfg.rewind = true)
    (hnd : (ems.map Prod.fst).Nodup)
    (hids : ∀ p ∈ ems, p.1 ≠ "")
    (hex : ∃ p ∈ ems, hasReached (marginTop cfg innerHeight) pos bottomPos p.2 = true) :
    countActive (classifyEmitters cfg innerHeight pos bottomPos ems) = 1 ∧
    ∀ p ∈ classifyEmitters cfg innerHeight pos bottomPos ems, p.2.active = true →
      hasReached (marginTop cfg innerHeight) pos bottomPos p.2 = true ∧
      ∀ q ∈ ems, hasReached (marginTop cfg innerHeight) pos bottomPos q.2 = true →
        trigTop (marginTop cfg innerHeight) pos q.2 ≤
          trigTop (marginTop cfg innerHeight) pos p.2 := by
  have hsome := findLastAux_some_of_reached (marginTop cfg innerHeight) pos bottomPos ems none hex
  obtain ⟨⟨id, t⟩, hfl⟩ := Option.isSome_iff_exists.mp hsome
  rcases findLastAux_mem (marginTop cfg innerHeight) pos bottomPos ems none id t hfl with
    hcon | ⟨r, hrmem, hrid, hrt, hrre⟩
  · exact absurd hcon (by simp)
  have hid : id ≠ "" := hrid ▸ hids r hrmem
  have hcl := classifyEmitters_eq_some cfg innerHeight pos bottomPos ems id t hfl hid
  have hstep0 : ∀ p ∈ stepAll cfg innerHeight pos bottomPos ems, p.2.active = false := by
    intro p hp
    unfold stepAll at hp
    rcases List.mem_map.mp hp with ⟨r0, _, hpe⟩
    rw [← hpe]
    simp [stepActive, hm, hrw]
  have hkeys : (stepAll cfg innerHeight pos bottomPos ems).map Prod.fst = ems.map Prod.fst := by
    unfold stepAll
    rw [List.map_map]
    rfl
  constructor
  · rw [hcl]
    apply countActive_setActiveById id _ hstep0
    · rw [hkeys]
      exact hnd
    · rw [hkeys, ← hrid]
      exact List.mem_map_of_mem Prod.fst hrmem
  · intro p hp hact
    rw [hcl] at hp
    unfold setActiveById at hp
    rcases List.mem_map.mp hp with ⟨q0, hq0, hpe⟩
    subst hpe
    by_cases hc : q0.1 = id
    · rw [if_pos hc] at hact ⊢
      obtain ⟨r1, hr1, hq0eq⟩ := List.mem_map.mp (by unfold stepAll at hq0; exact hq0)
      have hr1id : r1.1 = id := by
        rw [← hq0eq] at hc
        exact hc
      have hr1r : r1 = r := key_unique ems hnd r1 hr1 r hrmem (by rw [hr1id, hrid])
      have hq02 : q0.2 = stepActive cfg (marginTop cfg innerHeight) (marginBottom cfg)
          pos bottomPos r.2 := by
        rw [← hq0eq, ← hr1r]
      constructor
      · show hasReached (marginTop cfg innerHeight) pos bottomPos q0.2 = true
        rw [hq02, hasReached_stepActive]
        exact hrre
      · intro q hq hqre
        have hmax := findLastAux_maximal (marginTop cfg innerHeight) pos bottomPos ems
          none q hq hqre
        rw [hfl] at hmax
        have e : trigTop (marginTop cfg innerHeight) pos
            ({ q0.2 with active := true } : Emitter) = t := by
          show trigTop (marginTop cfg innerHeight) pos q0.2 = t
          rw [hq02, trigTop_stepActive]
          exact hrt
        rw [e]
        exact hmax
    · rw [if_neg hc] at hact
      rw [hstep0 q0 hq0] at hact
      exact Bool.noConfusion hact

/-- C1 witness: three emitters (absolute tops 100, 500, 900 at scroll 120,
viewport 800, page bottom 800 with the default bottom offset), default
config: exactly the first emitter is active. -/
theorem single_mode_rewind_exactly_one_active_witness :
    countActive (classifyEmitters defaultConfig 800 120 780
      [("s1", { rectTop := -20, rectBottom := 30, active := false }),
       ("s2", { rectTop := 380, rectBottom := 430, active := false }),
       ("s3", { rectTop := 780, rectBottom := 830, active := false })]) = 1 ∧
    ∀ p ∈ classifyEmitters defaultConfig 800 120 780
      [("s1", { rectTop := -20, rectBottom := 30, active := false }),
       ("s2", { rectTop := 380, rectBottom := 430, active := false }),
       ("s3", { rectTop := 780, rectBottom := 830, active := false })],
      p.2.active = true →
      hasReached (marginTop defaultConfig 800) 120 780 p.2 = true ∧
      ∀ q ∈ [("s1", ({ rectTop := -20, rectBottom := 30, active := false } : Emitter)),
       ("s2", { rectTop := 380, rectBottom := 430, active := false }),
       ("s3", { rectTop := 780, rectBottom := 830, active := false })],
        hasReached (marginTop defaultConfig 800) 120 780 q.2 = true →
        trigTop (marginTop defaultConfig 800) 120 q.2 ≤
          trigTop (marginTop defaultConfig 800) 120 p.2 :=
  single_mode_rewind_exactly_one_active defaultConfig 800 120 780
    [("s1", { rectTop := -20, rectBottom := 30, active := false }),
     ("s2", { rectTop := 380, rectBottom := 430, active := false }),
     ("s3", { rectTop := 780, rectBottom := 830, active := false })]
    (by decide) (by decide) (by decide) (by decide) (by decide)

/-! ## C3 -/

/-- C3: in either mode, once `scrollPosition >= bottomPosition` every emitter
counts as reached (line 224), so the `lastEmitter` bookkeeping picks an
emitter whose clamped trigger top is maximal among all emitters and line 247
forces its flag on — regardless of whether the scroll position has passed
that emitter's own trigger coordinate (ids unique-and-non-empty not needed
for existence, only non-emptiness of the id strings, as `refresh()` builds
them). -/
theorem bottom_override_activates_last_emitter
    (cfg : Config) (innerHeight pos bottomPos : Int) (ems : List (String × Emitter))
    (hne : ems ≠ []) (hids : ∀ p ∈ ems, p.1 ≠ "") (hb : bottomPos ≤ pos) :
    ∃ p ∈ classifyEmitters cfg innerHeight pos bottomPos ems,
      p.2.active = true ∧
      ∀ q ∈ ems, trigTop (marginTop cfg innerHeight) pos q.2 ≤
        trigTop (marginTop cfg innerHeight) pos p.2 := by
  have hreach : ∀ q ∈ ems, hasReached (marginTop cfg innerHeight) pos bottomPos q.2 = true := by
    intro q _
    unfold hasReached
    rw [decide_eq_true hb, Bool.or_true]
  obtain ⟨p0, hp0⟩ : ∃ p0, p0 ∈ ems := by
    cases ems with
    | nil => exact absurd rfl hne
    | cons a l => exact ⟨a, List.mem_cons_self _ _⟩
  have hsome := findLastAux_some_of_reached (marginTop cfg innerHeight) pos bottomPos ems
    none ⟨p0, hp0, hreach p0 hp0⟩
  obtain ⟨⟨id, t⟩, hfl⟩ := Option.isSome_iff_exists.mp hsome
  rcases findLastAux_mem (marginTop cfg innerHeight) pos bottomPos ems none id t hfl with
    hcon | ⟨r, hrmem, hrid, hrt, _⟩
  · exact absurd hcon (by simp)
  have hid : id ≠ "" := hrid ▸ hids r hrmem
  have hcl := classifyEmitters_eq_some cfg innerHeight pos bottomPos ems id t hfl hid
  refine ⟨(id, { stepActive cfg (marginTop cfg innerHeight) (marginBottom cfg) pos bottomPos r.2
      with active := true }), ?_, rfl, ?_⟩
  · rw [hcl]
    unfold setActiveById
    apply List.mem_map.mpr
    refine ⟨(r.1, stepActive cfg (marginTop cfg innerHeight) (marginBottom cfg) pos bottomPos r.2),
      ?_, ?_⟩
    · unfold stepAll
      exact List.mem_map.mpr ⟨r, hrmem, rfl⟩
    · rw [if_pos hrid, hrid]
  · intro q hq
    have hmax := findLastAux_maximal (marginTop cfg innerHeight) pos bottomPos ems none
      q hq (hreach q hq)
    rw [hfl] at hmax
    have e : trigTop (marginTop cfg innerHeight) pos
        ({ stepActive cfg (marginTop cfg innerHeight) (marginBottom cfg) pos bottomPos r.2
          with active := true } : Emitter) = t := by
      show trigTop (marginTop cfg innerHeight) pos
        (stepActive cfg (marginTop cfg innerHeight) (marginBottom cfg) pos bottomPos r.2) = t
      rw [trigTop_stepActive]
      exact hrt
    rw [e]
    exact hmax

/-- C3 witness: the spec's scenario — emitters at absolute tops 100, 500, 900,
viewport 800, document 1600, so `documentBottom = 800`, `bottomPosition =
780`; at position 790 the last emitter is activated although its own clamped
trigger is `895 > 790`. -/
theorem bottom_override_activates_last_emitter_witness :
    (∃ p ∈ classifyEmitters defaultConfig 800 790 780
      [("s1", { rectTop := -690, rectBottom := -640, active := false }),
       ("s2", { rectTop := -290, rectBottom := -240, active := false }),
       ("s3", { rectTop := 110, rectBottom := 160, active := false })],
      p.2.active = true ∧
      ∀ q ∈ [("s1", ({ rectTop := -690, rectBottom := -640, active := false } : Emitter)),
       ("s2", { rectTop := -290, rectBottom := -240, active := false }),
       ("s3", { rectTop := 110, rectBottom := 160, active := false })],
        trigTop (marginTop defaultConfig 800) 790 q.2 ≤
          trigTop (marginTop defaultConfig 800) 790 p.2) ∧
    (790 : Int) < trigTop (marginTop defaultConfig 800) 790
      { rectTop := 110, rectBottom := 160, active := false } :=
  ⟨bottom_override_activates_last_emitter defaultConfig 800 790 780
    [("s1", { rectTop := -690, rectBottom := -640, active := false }),
     ("s2", { rectTop := -290, rectBottom := -240, active := false }),
     ("s3", { rectTop := 110, rectBottom := 160, active := false })]
    (by decide) (by decide) (by decide), by decide⟩

/-! ## C7 -/

/-- The registry invariant of the data model: every stored listener's emitter
id is a key of the emitter collection. -/
def registryInvariant (reg : Registry) : Prop :=
  ∀ l ∈ reg.listeners, (reg.emitters.any fun p => p.1 = l.emitterId) = true

theorem insertEmitter_mem_self (ems : List (String × Bool)) (id : String) :
    ((insertEmitter ems id).any fun p => p.1 = id) = true := by
  unfold insertEmitter
  split
  · rename_i h
    rw [List.any_map]
    rw [List.any_eq_true] at h ⊢
    obtain ⟨p, hp, hpe⟩ := h
    refine ⟨p, hp, ?_⟩
    rw [decide_eq_true_eq] at hpe
    simp [hpe]
  · simp

theorem insertEmitter_mem_mono (ems : List (String × Bool)) (id id' : String)
    (h : (ems.any fun p => p.1 = id') = true) :
    ((insertEmitter ems id).any fun p => p.1 = id') = true := by
  unfold insertEmitter
  split
  · rw [List.any_map]
    rw [List.any_eq_true] at h ⊢
    obtain ⟨p, hp, hpe⟩ := h
    refine ⟨p, hp, ?_⟩
    rw [decide_eq_true_eq] at hpe
    by_cases hc : p.1 = id
    · have hii : id = id' := by rw [← hc, hpe]
      simp [hc, hii]
    · have hcc : ¬ id' = id := by
        rw [← hpe]
        exact hc
      simp [hcc, hpe]
  · simp [h]

theorem scanStep_invariant (docIds : List String) (acc : Registry) (fl : FoundListener)
    (h : registryInvariant acc) : registryInvariant (scanStep docIds acc fl) := by
  unfold registryInvariant at h ⊢
  unfold scanStep
  split
  · rename_i id hE
    split
    · intro l hl
      rcases List.mem_append.mp hl with h1 | h1
      · exact insertEmitter_mem_mono _ _ _ (h l h1)
      · have hle : l = { element := fl, emitterId := id } := by
          simpa using h1
        rw [hle]
        exact insertEmitter_mem_self _ _
    · exact h
  · exact h

theorem scanFold_invariant (docIds : List String) (fls : List FoundListener) :
    ∀ acc, registryInvariant acc → registryInvariant (fls.foldl (scanStep docIds) acc) := by
  induction fls with
  | nil =>
    intro acc h
    exact h
  | cons a rest ih =>
    intro acc h
    rw [List.foldl_cons]
    exact ih _ (scanStep_invariant docIds acc a h)

theorem scanFold_listeners_mem (docIds : List String) (fls : List FoundListener) :
    ∀ acc, ∀ l ∈ (fls.foldl (scanStep docIds) acc).listeners,
      l ∈ acc.listeners ∨ (l.element ∈ fls ∧ resolves docIds l.element = true) := by
  induction fls with
  | nil =>
    intro acc l hl
    exact Or.inl hl
  | cons a rest ih =>
    intro acc l hl
    rw [List.foldl_cons] at hl
    rcases ih _ l hl with h1 | h1
    · unfold scanStep at h1
      split at h1
      · rename_i id hE
        split at h1
        · rename_i hc
          rcases List.mem_append.mp h1 with h2 | h2
          · exact Or.inl h2
          · right
            have hle : l = { element := a, emitterId := id } := by
              simpa using h2
            constructor
            · rw [hle]
              exact List.mem_cons_self _ _
            · rw [hle]
              unfold resolves
              rw [hE]
              exact hc
        · exact Or.inl h1
      · exact Or.inl h1
    · exact Or.inr ⟨List.mem_cons_of_mem _ h1.1, h1.2⟩

/-- C7: refreshing preserves the no-dangling-reference invariant (from an
empty or any invariant-satisfying registry), and any found listener element
whose emitter id does not resolve by `document.getElementById` never appears
in the listener collection (lines 145-159: the listener push sits inside
`if (emitter)` and is paired with the emitter insertion). -/
theorem refresh_no_dangling_listeners (reg : Registry) (found : List FoundListener)
    (docIds : List String) (hinv : registryInvariant reg) :
    registryInvariant (refreshRegistry reg found docIds) ∧
    ∀ fl ∈ found, resolves docIds fl = false →
      ∀ l ∈ (refreshRegistry reg found docIds).listeners, l.element ≠ fl := by
  cases found with
  | nil =>
    have hr : refreshRegistry reg [] docIds = reg := rfl
    rw [hr]
    refine ⟨hinv, ?_⟩
    intro fl hfl
    cases hfl
  | cons a rest =>
    have hr : refreshRegistry reg (a :: rest) docIds =
        (a :: rest).reverse.foldl (scanStep docIds) { listeners := [], emitters := [] } := rfl
    rw [hr]
    constructor
    · apply scanFold_invariant
      intro l hl
      cases hl
    · intro fl hfl hres l hl heq
      rcases scanFold_listeners_mem docIds _ _ l hl with h1 | h1
      · cases h1
      · rw [heq] at h1
        rw [h1.2] at hres
        exact Bool.noConfusion hres

/-- C7 witness: one resolving and one non-resolving found element; the
rebuilt registry holds exactly the resolving one and satisfies the
invariant. -/
theorem refresh_no_dangling_listeners_witness :
    registryInvariant (refreshRegistry { listeners := [], emitters := [] }
      [{ href := some "#sec", attrValue := "" }, { href := none, attrValue := "ghost" }]
      ["sec"]) ∧
    ∀ fl ∈ [({ href := some "#sec", attrValue := "" } : FoundListener),
        { href := none, attrValue := "ghost" }],
      resolves ["sec"] fl = false →
      ∀ l ∈ (refreshRegistry { listeners := [], emitters := [] }
        [{ href := some "#sec", attrValue := "" }, { href := none, attrValue := "ghost" }]
        ["sec"]).listeners, l.element ≠ fl :=
  refresh_no_dangling_listeners { listeners := [], emitters := [] }
    [{ href := some "#sec", attrValue := "" }, { href := none, attrValue := "ghost" }]
    ["sec"] (by intro l hl; cases hl)

/-! ## Registry key well-formedness (supports the id hypotheses of the
classification theorems: refresh never stores an empty or duplicate id) -/

theorem emitterIdOf_ne_empty (fl : FoundListener) (id : String)
    (h : emitterIdOf fl = some id) : id ≠ "" := by
  have key : ∀ s : String, (if s = "" then none else some s : Option String) = some id →
      id ≠ "" := by
    intro s hs
    split at hs
    · exact Option.noConfusion hs
    · rename_i hne
      injection hs with h2
      rw [← h2]
      exact hne
  exact key (if listenerHrefOf fl = "" then fl.attrValue else listenerHrefOf fl) h

/-- Well-formed emitter keys: no duplicates and never the empty string. -/
def emitterKeysWellformed (ems : List (String × Bool)) : Prop :=
  (ems.map Prod.fst).Nodup ∧ ∀ id ∈ ems.map Prod.fst, id ≠ ""

theorem insertEmitter_keys_wellformed (ems : List (String × Bool)) (id : String)
    (hid : id ≠ "") (h : emitterKeysWellformed ems) :
    emitterKeysWellformed (insertEmitter ems id) := by
  unfold insertEmitter
  split
  · have hkeys : ((ems.map fun p => if p.1 = id then (id, false) else p).map Prod.fst) =
        ems.map Prod.fst := by
      rw [List.map_map]
      apply List.map_congr_left
      intro p _
      by_cases hc : p.1 = id
      · simp [hc]
      · simp [hc]
    unfold emitterKeysWellformed
    rw [hkeys]
    exact h
  · rename_i hany
    unfold emitterKeysWellformed at h ⊢
    rw [List.map_append]
    have hnotin : id ∉ ems.map Prod.fst := by
      intro hmem
      apply hany
      rw [List.any_eq_true]
      rcases List.mem_map.mp hmem with ⟨p, hp, hpe⟩
      exact ⟨p, hp, by rw [decide_eq_true_eq, hpe]⟩
    constructor
    · rw [List.nodup_append]
      refine ⟨h.1, List.nodup_singleton _, ?_⟩
      intro a ha hb
      simp only [List.map_cons, List.map_nil, List.mem_singleton] at hb
      rw [hb] at ha
      exact hnotin ha
    · intro id' hid'
      rcases List.mem_append.mp hid' with h1 | h1
      · exact h.2 id' h1
      · simp only [List.map_cons, List.map_nil, List.mem_singleton] at h1
        rw [h1]
        exact hid

theorem scanStep_keys_wellformed (docIds : List String) (acc : Registry)
    (fl : FoundListener) (h : emitterKeysWellformed acc.emitters) :
    emitterKeysWellformed (scanStep docIds acc fl).emitters := by
  unfold scanStep
  split
  · rename_i id hE
    split
    · exact insertEmitter_keys_wellformed _ _ (emitterIdOf_ne_empty fl id hE) h
    · exact h
  · exact h

theorem scanFold_keys_wellformed (docIds : List String) (fls : List FoundListener) :
    ∀ acc, emitterKeysWellformed acc.emitters →
      emitterKeysWellformed ((fls.foldl (scanStep docIds) acc).emitters) := by
  induction fls with
  | nil =>
    intro acc h
    exact h
  | cons a rest ih =>
    intro acc h
    rw [List.foldl_cons]
    exact ih _ (scanStep_keys_wellformed docIds acc a h)

/-- After any `refresh()` starting from a well-formed registry, the emitter
keys are still unique non-empty strings — the hypotheses on emitter ids used
by the classification theorems hold for every registry the library builds. -/
theorem refresh_keys_wellformed (reg : Registry) (found : List FoundListener)
    (docIds : List String) (h : emitterKeysWellformed reg.emitters) :
    emitterKeysWellformed ((refreshRegistry reg found docIds).emitters) := by
  cases found with
  | nil => exact h
  | cons a rest =>
    have hr : refreshRegistry reg (a :: rest) docIds =
        (a :: rest).reverse.foldl (scanStep docIds) { listeners := [], emitters := [] } := rfl
    rw [hr]
    apply scanFold_keys_wellformed
    exact ⟨List.nodup_nil, by intro id hid; cases hid⟩

/-! ## C8 -/

/-- C8: the throttled wrapper executes the very first call immediately, and a
burst of five calls 10 ms apart (clock times 1000..1040, interval 100 ms)
yields exactly two executions: the immediate one at the first call and one
deferred trailing execution when the pending timeout expires at 1140 — 100 ms
after the last suppressed call, so roughly 100 ms into the burst — never
five. -/
theorem defer_throttle_burst_two_executions :
    (∀ t : Int, ∀ rest : List Int,
      (deferSim 100 false (t :: rest)).head? = some (t, false)) ∧
    deferSim 100 false [1000, 1010, 1020, 1030, 1040] =
      [(1000, false), (1140, true)] := by
  constructor
  · intro t rest
    rfl
  · decide
